import Mathlib

/-!
# Verification of the purdue-plot derivation engine

Shallow embedding of `src/objects.py` and `src/purdue_plot_for_wl.py`.

Modelling conventions:
* Python floats (epoch seconds, derived offsets) are modelled as `ℚ`; all the
  values the claims mention are small integers on which float arithmetic is
  exact.
* A parsed `datetime` is modelled by the pair of the two projections the code
  uses: `timestamp()` (epoch seconds) and `.second` (seconds within the
  minute).
* The `defaultdict` state maps are modelled as total functions with default
  `[]`; the snapshots fed to the update functions are association lists in
  dict-iteration order.
* `update_stored_cycle_points` can raise `AttributeError` (the GREEN chaining
  branch reads `prev_red_point.x` without a `None` check), so its embedding
  returns the state reached so far together with a `Bool` crash flag; the
  crash can only happen in the first (GREEN) step of a cycle record, before
  that record has mutated anything, so returning the pre-record state at the
  crash is exact.
-/

namespace Purdue

/-- `objects.py` `TLColor`: the three signal colors, in the fixed G→Y→R
iteration order of the `Enum`. -/
inductive TLColor
  | GREEN
  | YELLOW
  | RED
deriving DecidableEq

/-- `objects.py` `Location`: RSU id + bound + movement, structural equality. -/
structure Location where
  rsu_id : Int
  bound : String
  movement : String
deriving DecidableEq

/-- `objects.py` `Point`: a simple (x, y) pair. -/
structure Point where
  x : ℚ
  y : ℚ
deriving DecidableEq

/-- A parsed timestamp, by the two projections the code uses:
`epoch` models `datetime.timestamp()` and `sec` models `datetime.second`. -/
structure DTime where
  epoch : ℚ
  sec : ℕ
deriving DecidableEq

/-- One per-cycle record: `Dict[TLColor, Optional[datetime]]`. -/
structure CycleRecord where
  green : Option DTime
  yellow : Option DTime
  red : Option DTime
deriving DecidableEq

def CycleRecord.get (r : CycleRecord) : TLColor → Option DTime
  | .GREEN => r.green
  | .YELLOW => r.yellow
  | .RED => r.red

/-- `for color in TLColor` iterates in declaration order G, Y, R. -/
def colorOrder : List TLColor := [.GREEN, .YELLOW, .RED]

/-- `StoredCyclePointsType`, the auto-vivifying nested defaultdict, as a total
function with default `[]`. -/
abbrev StoredCyclePoints := Location → TLColor → List Point

/-- `StoredEventsType`: per location, the retained batches of event epochs. -/
abbrev StoredEvents := Location → List (List ℚ)

/-- `CycleDataType` as an association list in dict-iteration order. -/
abbrev CycleData := List (Location × List CycleRecord)

/-- `ControllerEventsType` as an association list; events are carried as their
epoch seconds (the only projection the downstream code uses). -/
abbrev ControllerEvents := List (Location × List ℚ)

def emptyCyclePoints : StoredCyclePoints := fun _ _ => []

def emptyStoredEvents : StoredEvents := fun _ => []

/-- `stored_cycle_points[loc][color].append(p)` followed by the
`if len(...) == 4: pop(0)` cap (lines 213-217). -/
def capAppend (l : List Point) (p : Point) : List Point :=
  let l2 := l ++ [p]
  if l2.length = 4 then l2.drop 1 else l2

/-- Point update of the nested stored-cycle-points map at one (loc, color). -/
def setCP (s : StoredCyclePoints) (loc : Location) (c : TLColor)
    (v : List Point) : StoredCyclePoints :=
  fun loc2 c2 => if loc2 = loc ∧ c2 = c then v else s loc2 c2

/-- `curr_cycle_points`: the per-record dict of already-resolved colors. -/
abbrev CurrCycle := TLColor → Option Point

def setCurr (curr : CurrCycle) (c : TLColor) (p : Point) : CurrCycle :=
  fun c2 => if c2 = c then some p else curr c2

/-- The body of the `for color in TLColor` loop (lines 143-217) for one color
of one cycle record.  `none` models the uncaught `AttributeError` raised at
line 176 when the GREEN chaining branch reads `prev_red_point.x` while
`prev_red_point` is `None`. -/
def colorStep (s : StoredCyclePoints) (loc : Location) (curr : CurrCycle)
    (color : TLColor) (tyme : Option DTime) :
    Option (StoredCyclePoints × CurrCycle) :=
  let prev_point : Option Point := (s loc color).getLast?
  let prev_red_point : Option Point := (s loc TLColor.RED).getLast?
  let push : Point → StoredCyclePoints × CurrCycle := fun p =>
    (setCP s loc color (capAppend (s loc color) p), setCurr curr color p)
  match tyme, prev_point with
  | none, none => some (s, curr)
  | none, some prev => some (push prev)
  | some t, none => some (push ⟨t.epoch, (t.sec : ℚ)⟩)
  | some t, some _ =>
      if color = TLColor.GREEN then
        match prev_red_point with
        | none => none
        | some pr => some (push ⟨t.epoch, t.epoch - pr.x⟩)
      else if color = TLColor.YELLOW then
        match curr TLColor.GREEN with
        | some g => some (push ⟨t.epoch, g.y + t.epoch - g.x⟩)
        | none => some (push ⟨t.epoch, (t.sec : ℚ)⟩)
      else
        match curr TLColor.YELLOW with
        | some yl => some (push ⟨t.epoch, yl.y + t.epoch - yl.x⟩)
        | none =>
            match curr TLColor.GREEN with
            | some g => some (push ⟨t.epoch, g.y + t.epoch - g.x⟩)
            | none => some (push ⟨t.epoch, (t.sec : ℚ)⟩)

/-- Run the colors of one cycle record in the given order. -/
def runColors (loc : Location) (r : CycleRecord) :
    StoredCyclePoints → CurrCycle → List TLColor → Option StoredCyclePoints
  | s, _, [] => some s
  | s, curr, c :: cs =>
      match colorStep s loc curr c (r.get c) with
      | none => none
      | some sc => runColors loc r sc.1 sc.2 cs

/-- Process one cycle record (`for color in TLColor`, G→Y→R) starting from an
empty `curr_cycle_points`. -/
def datumStep (s : StoredCyclePoints) (loc : Location) (r : CycleRecord) :
    Option StoredCyclePoints :=
  runColors loc r s (fun _ => none) colorOrder

/-- `for datum in data` for one location; the `Bool` reports the crash.  The
state at a crash is the state before the offending record, which is exact
because the only crashing branch is the first (GREEN) step of a record. -/
def runDatums (loc : Location) :
    StoredCyclePoints → List CycleRecord → StoredCyclePoints × Bool
  | s, [] => (s, false)
  | s, r :: rs =>
      match datumStep s loc r with
      | none => (s, true)
      | some s2 => runDatums loc s2 rs

/-- `update_stored_cycle_points` (lines 135-217).  Returns the final state and
whether the call raised `AttributeError`. -/
def update_stored_cycle_points :
    StoredCyclePoints → CycleData → StoredCyclePoints × Bool
  | s, [] => (s, false)
  | s, (loc, rs) :: rest =>
      match runDatums loc s rs with
      | (s2, true) => (s2, true)
      | (s2, false) => update_stored_cycle_points s2 rest

/-- The body of `update_stored_events` for one location (lines 224-226):
pop the oldest batch when already at 3, then append the new batch. -/
def capAppendBatch (l : List (List ℚ)) (b : List ℚ) : List (List ℚ) :=
  (if l.length = 3 then l.drop 1 else l) ++ [b]

/-- `update_stored_events` (lines 220-226). -/
def update_stored_events (se : StoredEvents) (news : ControllerEvents) :
    StoredEvents :=
  news.foldl
    (fun se2 le => fun loc2 =>
      if loc2 = le.1 then capAppendBatch (se2 le.1) le.2 else se2 loc2)
    se

/-! ## The write (flush) functions

File I/O is modelled by the list of data rows appended, each row abstracted to
the `(location, x, y)` triple that `make_data_row` is fed (the remaining row
fields are pure formatting of the same values).  `write_cycle_data` writes
each color to its own file, so the per-file content depends only on the
location iteration order; the stored map is passed in dict-iteration order as
an association list. -/

/-- The per-(location, color) body of `write_cycle_data` (lines 249-259):
skip if fewer than 2 points, else write `points[-2]` then `points[-1]`. -/
def rowsFor (loc : Location) (points : List Point) :
    List (Location × ℚ × ℚ) :=
  if points.length < 2 then []
  else
    let p2 := points.getD (points.length - 2) ⟨0, 0⟩
    let p1 := points.getD (points.length - 1) ⟨0, 0⟩
    let x_vals := [p2.x, p1.x]
    let y_vals := [p2.y, p1.y]
    (x_vals.zip y_vals).map (fun v => (loc, v.1, v.2))

/-- `write_cycle_data` (lines 242-259), projected to the rows appended to the
output file of one color. -/
def write_cycle_data (stored : List (Location × (TLColor → List Point)))
    (color : TLColor) : List (Location × ℚ × ℚ) :=
  (stored.map (fun e => rowsFor e.1 (e.2 color))).flatten

/-- The inner `for point in ...RED` loop of `write_events` (lines 275-278):
`diff` starts at `inf` (modelled `none`) and is lowered to `event - point.x`
whenever `0 <= event - point.x < diff`. -/
def updDiff (e : ℚ) (diff : Option ℚ) (p : Point) : Option ℚ :=
  match diff with
  | none => if 0 ≤ e - p.x then some (e - p.x) else none
  | some d => if 0 ≤ e - p.x ∧ e - p.x < d then some (e - p.x) else some d

/-- The final `diff` for one event against the retained RED points; `none`
models `diff` still `inf` (event dropped). -/
def minDiffLoop (e : ℚ) (reds : List Point) : Option ℚ :=
  reds.foldl (updDiff e) none

/-- One iteration of the `for event in sorted(all_events[0])` loop (lines
274-282): extend `x_vals` and `y_vals` when `diff` ended finite. -/
def corStep (reds : List Point) (acc : List ℚ × List ℚ) (e : ℚ) :
    List ℚ × List ℚ :=
  match minDiffLoop e reds with
  | none => acc
  | some d => (acc.1 ++ [e], acc.2 ++ [d])

/-- The `for event in sorted(all_events[0])` loop (lines 274-282), building
`x_vals` and `y_vals` in lockstep. -/
def correlateBatch (es : List ℚ) (reds : List Point) : List ℚ × List ℚ :=
  es.foldl (corStep reds) ([], [])

/-- `write_events` (lines 262-287), projected to the appended rows. -/
def write_events (stored_events : List (Location × List (List ℚ)))
    (scp : StoredCyclePoints) : List (Location × ℚ × ℚ) :=
  (stored_events.map (fun le =>
    if le.2.length < 3 ∨ (scp le.1 TLColor.RED).length < 3 then []
    else
      let batch := List.insertionSort (· ≤ ·) le.2.headI
      let xy := correlateBatch batch (scp le.1 TLColor.RED)
      (xy.1.zip xy.2).map (fun v => (le.1, v.1, v.2)))).flatten

/-! ## The snapshot parsers

The raw JSON payloads are modelled structurally: a `statusCode` that is
`none` when the key is absent, and the nested per-rsu / per-bound /
per-movement body as association lists.  `datetime.strptime`, `int(...)` and
`float(...)` are abstracted as parameters: the claims only concern the guard,
the emptiness tests and the shape of the walk, never the string formats. -/

/-- The per-movement color dict of a cycles payload: one raw string per color
("" = color not observed). -/
structure RawColorDict where
  green : String
  yellow : String
  red : String

def RawColorDict.get (cd : RawColorDict) : TLColor → String
  | .GREEN => cd.green
  | .YELLOW => cd.yellow
  | .RED => cd.red

/-- A cycles-API message: optional status code and the nested body. -/
structure CycleMsg where
  statusCode : Option Int
  body : List (String × List (String × List (String × RawColorDict)))

/-- A traffic-API message; the innermost string is the comma-separated
`trigger_time` field. -/
structure TrafficMsg where
  statusCode : Option Int
  body : List (String × List (String × List (String × String)))

/-- `datum = {color: None if not color_dict[color.value] else strptime(...)}`
(lines 106-109). -/
def mkDatum (parseTime : String → DTime) (cd : RawColorDict) : CycleRecord :=
  { green := if cd.green = "" then none else some (parseTime cd.green)
    yellow := if cd.yellow = "" then none else some (parseTime cd.yellow)
    red := if cd.red = "" then none else some (parseTime cd.red) }

/-- `any(datum.values())` (line 110): some color carries a timestamp. -/
def anyPresent (r : CycleRecord) : Bool :=
  r.green.isSome || r.yellow.isSome || r.red.isSome

/-- `defaultdict(list)[key].append(a)`: append to the existing entry of an
association list, or create the entry at the end. -/
def pushEntry {α : Type} :
    List (Location × List α) → Location → α → List (Location × List α)
  | [], loc, a => [(loc, [a])]
  | e :: rest, loc, a =>
      if e.1 = loc then (e.1, e.2 ++ [a]) :: rest
      else e :: pushEntry rest loc a

/-- `make_cycle_data` (lines 97-113). -/
def make_cycle_data (parseTime : String → DTime) (toInt : String → Int)
    (msg : CycleMsg) : CycleData :=
  if msg.statusCode = some 200 then
    msg.body.foldl (fun data rsuE =>
      rsuE.2.foldl (fun data2 boundE =>
        boundE.2.foldl (fun data3 mvmtE =>
          let datum := mkDatum parseTime mvmtE.2
          if anyPresent datum then
            pushEntry data3 ⟨toInt rsuE.1, boundE.1, mvmtE.1⟩ datum
          else data3) data2) data) []
  else []

/-- The separator of the `trigger_time` field. -/
def commaSep : String := ","

/-- The `for trigger in trigger_dict['trigger_time'].split(',')` loop of
`get_controller_events` (lines 126-130). -/
def triggerFold (parseFloat : String → ℚ) (tyme : ℚ)
    (ev : ControllerEvents) (loc : Location) (s : String) :
    ControllerEvents :=
  (s.splitOn commaSep).foldl
    (fun acc trig =>
      if trig = "" then acc else pushEntry acc loc (tyme + parseFloat trig))
    ev

/-- `get_controller_events` (lines 116-132); `tyme` is the poll time as epoch
seconds, and a produced event is carried as its epoch value
(`tyme + timedelta(seconds=float(trigger))`). -/
def get_controller_events (parseFloat : String → ℚ) (toInt : String → Int)
    (msg : TrafficMsg) (tyme : ℚ) : ControllerEvents :=
  if msg.statusCode = some 200 then
    msg.body.foldl (fun ev rsuE =>
      rsuE.2.foldl (fun ev2 boundE =>
        boundE.2.foldl (fun ev3 mvmtE =>
          triggerFold parseFloat tyme ev3 ⟨toInt rsuE.1, boundE.1, mvmtE.1⟩
            mvmtE.2) ev2) ev) []
  else []

/-! ## Interleaved update sequences (for the history-bound invariant) -/

/-- One call of either update entry point of the polling loop. -/
inductive Op
  | cyc (d : CycleData)
  | ev (d : ControllerEvents)

/-- Run a sequence of update calls on the pair of history maps; a crash of
`update_stored_cycle_points` leaves the state it had mutated so far. -/
def runOps : StoredCyclePoints × StoredEvents → List Op →
    StoredCyclePoints × StoredEvents
  | st, [] => st
  | st, (Op.cyc d) :: rest =>
      runOps ((update_stored_cycle_points st.1 d).1, st.2) rest
  | st, (Op.ev d) :: rest =>
      runOps (st.1, update_stored_events st.2 d) rest

/-! ## Observed-timestamp bookkeeping (for the monotonicity analysis)

`obsTimes d loc c` lists, in processing order, the epoch values of the
timestamps observed for color `c` at location `loc` across the snapshot `d`;
`lastXs l` is the (zero- or one-element) list holding the x of the last
stored point. -/

def lastXs (l : List Point) : List ℚ :=
  (l.getLast?.map Point.x).toList

def epochsOf (t : Option DTime) : List ℚ :=
  (t.map DTime.epoch).toList

def addDatum (loc : Location) (r : CycleRecord)
    (R : Location → TLColor → List ℚ) : Location → TLColor → List ℚ :=
  fun loc2 c2 => if loc2 = loc then epochsOf (r.get c2) ++ R loc2 c2
                 else R loc2 c2

def addDatums (loc : Location) :
    List CycleRecord → (Location → TLColor → List ℚ) →
      (Location → TLColor → List ℚ)
  | [], R => R
  | r :: rs, R => addDatum loc r (addDatums loc rs R)

def addData : CycleData → (Location → TLColor → List ℚ) →
    (Location → TLColor → List ℚ)
  | [], R => R
  | (loc, rs) :: rest, R => addDatums loc rs (addData rest R)

def obsTimes (d : CycleData) : Location → TLColor → List ℚ :=
  addData d (fun _ _ => [])

/-! ## Concrete instances used by the claim theorems -/

def loc0 : Location := ⟨1, r"N", r"T"⟩

/-- A state with one stored GREEN point and no stored RED point. -/
def greenOnlyState : StoredCyclePoints :=
  setCP emptyCyclePoints loc0 TLColor.GREEN [⟨40, 40⟩]

/-- A cycle record observing only GREEN, at epoch 100 (seconds field 40). -/
def greenAt100 : CycleRecord := ⟨some ⟨100, 40⟩, none, none⟩

/-- Poll 1 of the end-to-end scenario: GREEN@100 (sec = 40) only. -/
def pollOne : CycleData := [(loc0, [greenAt100])]

/-- Poll 2 of the end-to-end scenario: RED@160 (sec = 40) only. -/
def pollTwo : CycleData := [(loc0, [⟨none, none, some ⟨160, 40⟩⟩])]

/-- One snapshot delivering RED@100 then RED@50: timestamps out of order. -/
def outOfOrderReds : CycleData :=
  [(loc0, [⟨none, none, some ⟨100, 40⟩⟩, ⟨none, none, some ⟨50, 50⟩⟩])]

/-- A cycle record with GREEN@130 (sec = 10) and YELLOW@135 (sec = 15). -/
def chainRecord : CycleRecord := ⟨some ⟨130, 10⟩, some ⟨135, 15⟩, none⟩

/-- A state whose only stored point is the RED point (100, 5). -/
def redOnlyState : StoredCyclePoints :=
  setCP emptyCyclePoints loc0 TLColor.RED [⟨100, 5⟩]

/-- A state with the three retained RED points x = 100, 160, 220. -/
def redTriple : StoredCyclePoints :=
  setCP emptyCyclePoints loc0 TLColor.RED [⟨100, 0⟩, ⟨160, 0⟩, ⟨220, 0⟩]

/-- Three retained event batches whose oldest holds events 170 and 90. -/
def eventWindow : List (Location × List (List ℚ)) :=
  [(loc0, [[170, 90], [], []])]

end Purdue

/-! # Theorems -/

namespace Purdue

/-! ## Basic lemmas about the state updates -/

theorem setCP_self (s : StoredCyclePoints) (loc : Location) (c : TLColor)
    (v : List Point) : setCP s loc c v loc c = v := by
  simp [setCP]

theorem setCP_ne (s : StoredCyclePoints) (loc : Location) (c : TLColor)
    (v : List Point) (loc2 : Location) (c2 : TLColor)
    (h : ¬(loc2 = loc ∧ c2 = c)) : setCP s loc c v loc2 c2 = s loc2 c2 := by
  unfold setCP
  exact if_neg h

theorem setCurr_self (curr : CurrCycle) (c : TLColor) (p : Point) :
    setCurr curr c p c = some p := by
  simp [setCurr]

theorem capAppend_nil (p : Point) : capAppend [] p = [p] := rfl

theorem capAppend_getLast? (l : List Point) (p : Point) :
    (capAppend l p).getLast? = some p := by
  simp only [capAppend]
  split
  · next h =>
      have hl : l ≠ [] := by
        intro e
        subst e
        simp at h
      rw [List.drop_append_of_le_length, List.getLast?_concat]
      have := List.length_pos.mpr hl
      omega
  · exact List.getLast?_concat l

theorem capAppend_length_le (l : List Point) (p : Point) (h : l.length ≤ 3) :
    (capAppend l p).length ≤ 3 := by
  simp only [capAppend]
  split
  · simpa using h
  · next h4 =>
      simp only [List.length_append, List.length_cons, List.length_nil] at h4 ⊢
      omega

theorem capAppendBatch_length_le (l : List (List ℚ)) (b : List ℚ)
    (h : l.length ≤ 3) : (capAppendBatch l b).length ≤ 3 := by
  unfold capAppendBatch
  split
  · next h3 => simp [h3]
  · next h3 =>
      simp only [List.length_append, List.length_cons, List.length_nil]
      omega

theorem runColors_nil (loc : Location) (r : CycleRecord)
    (s : StoredCyclePoints) (curr : CurrCycle) :
    runColors loc r s curr [] = some s := rfl

theorem runColors_cons (loc : Location) (r : CycleRecord)
    (s : StoredCyclePoints) (curr : CurrCycle) (c : TLColor)
    (cs : List TLColor) :
    runColors loc r s curr (c :: cs) =
      match colorStep s loc curr c (r.get c) with
      | none => none
      | some sc => runColors loc r sc.1 sc.2 cs := rfl

theorem update_single (s : StoredCyclePoints) (loc : Location)
    (r : CycleRecord) :
    update_stored_cycle_points s [(loc, [r])] =
      match datumStep s loc r with
      | none => (s, true)
      | some s2 => (s2, false) := by
  cases h : datumStep s loc r <;>
    simp [update_stored_cycle_points, runDatums, h]

/-! ## The branch behaviour of one color step -/

theorem colorStep_skip (s : StoredCyclePoints) (loc : Location)
    (curr : CurrCycle) (c : TLColor) (hp : (s loc c).getLast? = none) :
    colorStep s loc curr c none = some (s, curr) := by
  simp [colorStep, hp]

theorem colorStep_carry (s : StoredCyclePoints) (loc : Location)
    (curr : CurrCycle) (c : TLColor) (prev : Point)
    (hp : (s loc c).getLast? = some prev) :
    colorStep s loc curr c none =
      some (setCP s loc c (capAppend (s loc c) prev), setCurr curr c prev) := by
  simp [colorStep, hp]

theorem colorStep_bootstrap (s : StoredCyclePoints) (loc : Location)
    (curr : CurrCycle) (c : TLColor) (t : DTime)
    (hp : (s loc c).getLast? = none) :
    colorStep s loc curr c (some t) =
      some (setCP s loc c (capAppend (s loc c) ⟨t.epoch, (t.sec : ℚ)⟩),
            setCurr curr c ⟨t.epoch, (t.sec : ℚ)⟩) := by
  simp [colorStep, hp]

theorem colorStep_green_crash (s : StoredCyclePoints) (loc : Location)
    (curr : CurrCycle) (t : DTime) (pg : Point)
    (hp : (s loc TLColor.GREEN).getLast? = some pg)
    (hr : (s loc TLColor.RED).getLast? = none) :
    colorStep s loc curr TLColor.GREEN (some t) = none := by
  simp [colorStep, hp, hr]

theorem colorStep_green_chain (s : StoredCyclePoints) (loc : Location)
    (curr : CurrCycle) (t : DTime) (pg pr : Point)
    (hp : (s loc TLColor.GREEN).getLast? = some pg)
    (hr : (s loc TLColor.RED).getLast? = some pr) :
    colorStep s loc curr TLColor.GREEN (some t) =
      some (setCP s loc TLColor.GREEN
              (capAppend (s loc TLColor.GREEN) ⟨t.epoch, t.epoch - pr.x⟩),
            setCurr curr TLColor.GREEN ⟨t.epoch, t.epoch - pr.x⟩) := by
  simp [colorStep, hp, hr]

theorem colorStep_yellow_chain (s : StoredCyclePoints) (loc : Location)
    (curr : CurrCycle) (t : DTime) (py g : Point)
    (hp : (s loc TLColor.YELLOW).getLast? = some py)
    (hg : curr TLColor.GREEN = some g) :
    colorStep s loc curr TLColor.YELLOW (some t) =
      some (setCP s loc TLColor.YELLOW
              (capAppend (s loc TLColor.YELLOW) ⟨t.epoch, g.y + t.epoch - g.x⟩),
            setCurr curr TLColor.YELLOW ⟨t.epoch, g.y + t.epoch - g.x⟩) := by
  simp [colorStep, hp, hg]

/-- Every successful color step either leaves the state unchanged or appends
exactly one point to the list of its own (location, color). -/
theorem colorStep_shape {s : StoredCyclePoints} {loc : Location}
    {curr : CurrCycle} {c : TLColor} {t : Option DTime}
    {s2 : StoredCyclePoints} {cu2 : CurrCycle}
    (h : colorStep s loc curr c t = some (s2, cu2)) :
    s2 = s ∨ ∃ p, s2 = setCP s loc c (capAppend (s loc c) p) := by
  simp only [colorStep] at h
  repeat' split at h
  all_goals
    simp only [Option.some.injEq, Prod.mk.injEq, reduceCtorEq] at h
  all_goals obtain ⟨h1, h2⟩ := h
  all_goals
    first
    | exact Or.inl h1.symm
    | exact Or.inr ⟨_, h1.symm⟩

theorem colorStep_other {s : StoredCyclePoints} {loc : Location}
    {curr : CurrCycle} {c : TLColor} {t : Option DTime}
    {s2 : StoredCyclePoints} {cu2 : CurrCycle}
    (h : colorStep s loc curr c t = some (s2, cu2))
    {loc2 : Location} {c2 : TLColor} (hne : ¬(loc2 = loc ∧ c2 = c)) :
    s2 loc2 c2 = s loc2 c2 := by
  rcases colorStep_shape h with h1 | ⟨p, h1⟩
  · rw [h1]
  · rw [h1, setCP_ne _ _ _ _ _ _ hne]

/-! ## Claim C3 -/

/-- C3: refuted — the code is wrong.  With a previous GREEN point stored but
no RED point stored, a cycle record observing GREEN does not fall back to the
rule-8 bootstrap: `update_stored_cycle_points` takes the rule-4 chaining
branch without checking `prev_red_point` and raises `AttributeError`
(`prev_red_point.x` with `prev_red_point = None`, line 176), leaving the
history unchanged.  The crash flag of the embedding records the exception. -/
theorem C3_green_crash_code_bug :
    (update_stored_cycle_points greenOnlyState [(loc0, [greenAt100])]).2 = true
    ∧ (update_stored_cycle_points greenOnlyState [(loc0, [greenAt100])]).1
        loc0 TLColor.GREEN = [⟨40, 40⟩]
    ∧ (update_stored_cycle_points greenOnlyState [(loc0, [greenAt100])]).1
        loc0 TLColor.RED = [] := by
  decide

/-! ## Claim C7 -/

/-- C7: counterexample.  Running the spec's end-to-end scenario (poll 1:
GREEN@100 with seconds field 40; poll 2: RED@160 only) does not leave
GREEN = [(100, 40)] and RED = [(160, 60)]: the claim is false on the code. -/
theorem C7_end_to_end_counterexample :
    ¬((update_stored_cycle_points
          (update_stored_cycle_points emptyCyclePoints pollOne).1 pollTwo).1
            loc0 TLColor.GREEN = [⟨100, 40⟩]
      ∧ (update_stored_cycle_points
          (update_stored_cycle_points emptyCyclePoints pollOne).1 pollTwo).1
            loc0 TLColor.RED = [⟨160, 60⟩]) := by
  decide

/-- C7 (amended): after the two polls the stored history is
GREEN = [(100, 40), (100, 40)] — poll 2 carries the previous GREEN point
forward and appends the duplicate (rule 2) — and RED = [(160, 40)] — the
first RED bootstraps to the seconds field of its timestamp (40), not to
160 − 100; no error is raised. -/
theorem C7_end_to_end_amended :
    (update_stored_cycle_points emptyCyclePoints pollOne).2 = false
    ∧ (update_stored_cycle_points
        (update_stored_cycle_points emptyCyclePoints pollOne).1 pollTwo).2
          = false
    ∧ (update_stored_cycle_points
        (update_stored_cycle_points emptyCyclePoints pollOne).1 pollTwo).1
          loc0 TLColor.GREEN = [⟨100, 40⟩, ⟨100, 40⟩]
    ∧ (update_stored_cycle_points
        (update_stored_cycle_points emptyCyclePoints pollOne).1 pollTwo).1
          loc0 TLColor.RED = [⟨160, 40⟩] := by
  decide

/-! ## Claim C8 -/

/-- C8: counterexample.  One update call from empty history, delivering RED
observations at epoch 100 and then epoch 50, leaves the stored RED list
[(100, 40), (50, 50)], whose x coordinates are not strictly increasing (nor
even non-decreasing); no error is raised. -/
theorem C8_strictly_increasing_counterexample :
    ((update_stored_cycle_points emptyCyclePoints outOfOrderReds).1
        loc0 TLColor.RED).map Point.x = [100, 50]
    ∧ (update_stored_cycle_points emptyCyclePoints outOfOrderReds).2 = false
    ∧ ¬ List.Chain' (· < ·)
        (((update_stored_cycle_points emptyCyclePoints outOfOrderReds).1
            loc0 TLColor.RED).map Point.x) := by
  have hm : ((update_stored_cycle_points emptyCyclePoints outOfOrderReds).1
      loc0 TLColor.RED).map Point.x = [(100 : ℚ), 50] := by decide
  refine ⟨hm, by decide, ?_⟩
  rw [hm]
  intro hch
  have h50 : (100 : ℚ) < 50 := List.chain'_cons.mp hch |>.1
  norm_num at h50

/-! ## Claim C4 -/

/-- C4: counterexample.  In a state whose last (and only) stored RED point is
(100, 5) but with no stored GREEN point, a cycle record with GREEN observed
at epoch 130 (seconds field 10) appends the bootstrap point (130, 10), not
the chained point (130, 30): with no previous GREEN point, the
`prev_point is None` branch precedes the chaining branch. -/
theorem C4_chaining_counterexample :
    (update_stored_cycle_points redOnlyState [(loc0, [chainRecord])]).2
        = false
    ∧ (update_stored_cycle_points redOnlyState [(loc0, [chainRecord])]).1
        loc0 TLColor.GREEN = [⟨130, 10⟩]
    ∧ ¬((update_stored_cycle_points redOnlyState [(loc0, [chainRecord])]).1
          loc0 TLColor.GREEN
        = capAppend (redOnlyState loc0 TLColor.GREEN) ⟨130, 30⟩) := by
  decide

/-! ## Claim C10 -/

theorem getD_pair_left {α : Type} (l : List α) (a b d : α) :
    (l ++ [a, b]).getD l.length d = a := by
  induction l with
  | nil => rfl
  | cons x xs ih => simpa [List.getD_cons_succ] using ih

theorem getD_pair_right {α : Type} (l : List α) (a b d : α) :
    (l ++ [a, b]).getD (l.length + 1) d = b := by
  induction l with
  | nil => rfl
  | cons x xs ih => simpa [List.getD_cons_succ] using ih

/-- C10: on each flush, `write_cycle_data` concatenates, over the stored
(location, color) pairs in iteration order, the rows of `rowsFor`; a pair
with 0 or 1 stored points yields no rows, and a pair with at least 2 stored
points yields exactly two rows: the second-to-last point then the last point
(so the oldest of 3 retained points is never written). -/
theorem C10_write_cycle_rows :
    (∀ (stored : List (Location × (TLColor → List Point))) (color : TLColor),
        write_cycle_data stored color
          = (stored.map (fun e => rowsFor e.1 (e.2 color))).flatten)
    ∧ (∀ loc : Location, rowsFor loc [] = [])
    ∧ (∀ (loc : Location) (p : Point), rowsFor loc [p] = [])
    ∧ (∀ (loc : Location) (l : List Point) (a b : Point),
        rowsFor loc (l ++ [a, b])
          = [(loc, a.x, a.y), (loc, b.x, b.y)]) := by
  refine ⟨fun stored color => rfl, fun loc => rfl, fun loc p => rfl,
    fun loc l a b => ?_⟩
  have hlen : (l ++ [a, b]).length = l.length + 2 := by simp
  simp only [rowsFor, hlen]
  rw [if_neg (by omega)]
  have h2 : l.length + 2 - 2 = l.length := by omega
  have h1 : l.length + 2 - 1 = l.length + 1 := by omega
  rw [h2, h1, getD_pair_left, getD_pair_right]
  simp [List.zip]

/-! ## Threading one cycle record through the three color steps -/

theorem runColors_cons_some {s : StoredCyclePoints} {loc : Location}
    {r : CycleRecord} {curr : CurrCycle} {c : TLColor} {t : Option DTime}
    {sc : StoredCyclePoints × CurrCycle} (cs : List TLColor)
    (ht : r.get c = t) (h : colorStep s loc curr c t = some sc) :
    runColors loc r s curr (c :: cs) = runColors loc r sc.1 sc.2 cs := by
  rw [runColors_cons, ht, h]

theorem runColors_cons_none {s : StoredCyclePoints} {loc : Location}
    {r : CycleRecord} {curr : CurrCycle} {c : TLColor} {t : Option DTime}
    (cs : List TLColor) (ht : r.get c = t)
    (h : colorStep s loc curr c t = none) :
    runColors loc r s curr (c :: cs) = none := by
  rw [runColors_cons, ht, h]

/-- A successful `datumStep` decomposes into three successful color steps in
the order GREEN, YELLOW, RED. -/
theorem datumStep_steps {s : StoredCyclePoints} {loc : Location}
    {r : CycleRecord} {s2 : StoredCyclePoints}
    (h : datumStep s loc r = some s2) :
    ∃ sc1 sc2 sc3,
      colorStep s loc (fun _ => none) TLColor.GREEN (r.get TLColor.GREEN)
          = some sc1
      ∧ colorStep sc1.1 loc sc1.2 TLColor.YELLOW (r.get TLColor.YELLOW)
          = some sc2
      ∧ colorStep sc2.1 loc sc2.2 TLColor.RED (r.get TLColor.RED)
          = some sc3
      ∧ s2 = sc3.1 := by
  unfold datumStep colorOrder at h
  cases h1 : colorStep s loc (fun _ => none) TLColor.GREEN
      (r.get TLColor.GREEN) with
  | none => rw [runColors_cons_none _ rfl h1] at h; exact absurd h (by simp)
  | some sc1 =>
      rw [runColors_cons_some _ rfl h1] at h
      cases h2 : colorStep sc1.1 loc sc1.2 TLColor.YELLOW
          (r.get TLColor.YELLOW) with
      | none => rw [runColors_cons_none _ rfl h2] at h; exact absurd h (by simp)
      | some sc2 =>
          rw [runColors_cons_some _ rfl h2] at h
          cases h3 : colorStep sc2.1 loc sc2.2 TLColor.RED
              (r.get TLColor.RED) with
          | none =>
              rw [runColors_cons_none _ rfl h3] at h
              exact absurd h (by simp)
          | some sc3 =>
              rw [runColors_cons_some _ rfl h3, runColors_nil] at h
              exact ⟨sc1, sc2, sc3, rfl, h2, h3, (Option.some.inj h).symm⟩

/-! ## Claim C5 -/

/-- C5: counterexample.  The carry-forward claim fails as stated: in a state
with GREEN = [(10, 10)], YELLOW = [(20, 20)] and RED empty, a cycle record
with YELLOW absent but GREEN observed raises in the GREEN step (the C3 bug),
so the YELLOW carry-forward append never happens — YELLOW stays [(20, 20)]
instead of being extended with a duplicate of its last point. -/
theorem C5_carry_forward_counterexample :
    greenAt100.get TLColor.YELLOW = none
    ∧ ((setCP (setCP emptyCyclePoints loc0 TLColor.GREEN [⟨10, 10⟩])
          loc0 TLColor.YELLOW [⟨20, 20⟩]) loc0 TLColor.YELLOW).getLast?
        = some ⟨20, 20⟩
    ∧ (update_stored_cycle_points
        (setCP (setCP emptyCyclePoints loc0 TLColor.GREEN [⟨10, 10⟩])
          loc0 TLColor.YELLOW [⟨20, 20⟩])
        [(loc0, [greenAt100])]).2 = true
    ∧ (update_stored_cycle_points
        (setCP (setCP emptyCyclePoints loc0 TLColor.GREEN [⟨10, 10⟩])
          loc0 TLColor.YELLOW [⟨20, 20⟩])
        [(loc0, [greenAt100])]).1 loc0 TLColor.YELLOW = [⟨20, 20⟩]
    ∧ ¬((update_stored_cycle_points
          (setCP (setCP emptyCyclePoints loc0 TLColor.GREEN [⟨10, 10⟩])
            loc0 TLColor.YELLOW [⟨20, 20⟩])
          [(loc0, [greenAt100])]).1 loc0 TLColor.YELLOW
        = capAppend [⟨20, 20⟩] ⟨20, 20⟩) := by
  decide

/-- C5 (amended): the carry-forward rule holds provided the call does not
raise — the GREEN chaining `AttributeError` (claim C3) can abort the record
before its later colors are processed.  Under that proviso, for a cycle
record in which color `c` is absent: if a point for `c` is already stored,
the update appends a point equal to the last stored one (through the capped
append); if no point for `c` is stored, the list for `c` is left
unchanged. -/
theorem C5_carry_forward (s : StoredCyclePoints) (loc : Location)
    (r : CycleRecord) (c : TLColor) (hc : r.get c = none)
    (hok : (update_stored_cycle_points s [(loc, [r])]).2 = false) :
    (∀ prev, (s loc c).getLast? = some prev →
        (update_stored_cycle_points s [(loc, [r])]).1 loc c
          = capAppend (s loc c) prev)
    ∧ ((s loc c).getLast? = none →
        (update_stored_cycle_points s [(loc, [r])]).1 loc c = s loc c) := by
  cases hd : datumStep s loc r with
  | none => rw [update_single, hd] at hok; simp at hok
  | some s2 =>
      have hres : (update_stored_cycle_points s [(loc, [r])]).1 = s2 := by
        rw [update_single, hd]
      rw [hres]
      obtain ⟨sc1, sc2, sc3, h1, h2, h3, hs2⟩ := datumStep_steps hd
      subst hs2
      cases c with
      | GREEN =>
          rw [hc] at h1
          have hoth : sc3.1 loc TLColor.GREEN = sc1.1 loc TLColor.GREEN := by
            rw [colorStep_other h3 (by simp), colorStep_other h2 (by simp)]
          constructor
          · intro prev hp
            rw [colorStep_carry s loc _ _ prev hp] at h1
            have e1 := Option.some.inj h1
            have e1f : setCP s loc TLColor.GREEN
                (capAppend (s loc TLColor.GREEN) prev) = sc1.1 :=
              congrArg Prod.fst e1
            rw [hoth, ← e1f, setCP_self]
          · intro hp
            rw [colorStep_skip s loc _ _ hp] at h1
            have e1 := Option.some.inj h1
            have e1f : s = sc1.1 := congrArg Prod.fst e1
            rw [hoth, ← e1f]
      | YELLOW =>
          rw [hc] at h2
          have hfst : sc1.1 loc TLColor.YELLOW = s loc TLColor.YELLOW :=
            colorStep_other h1 (by simp)
          have hoth : sc3.1 loc TLColor.YELLOW = sc2.1 loc TLColor.YELLOW :=
            colorStep_other h3 (by simp)
          constructor
          · intro prev hp
            have hp1 : (sc1.1 loc TLColor.YELLOW).getLast? = some prev := by
              rw [hfst, hp]
            rw [colorStep_carry sc1.1 loc _ _ prev hp1] at h2
            have e2 := Option.some.inj h2
            have e2f : setCP sc1.1 loc TLColor.YELLOW
                (capAppend (sc1.1 loc TLColor.YELLOW) prev) = sc2.1 :=
              congrArg Prod.fst e2
            rw [hoth, ← e2f, setCP_self, hfst]
          · intro hp
            have hp1 : (sc1.1 loc TLColor.YELLOW).getLast? = none := by
              rw [hfst, hp]
            rw [colorStep_skip sc1.1 loc _ _ hp1] at h2
            have e2 := Option.some.inj h2
            have e2f : sc1.1 = sc2.1 := congrArg Prod.fst e2
            rw [hoth, ← e2f, hfst]
      | RED =>
          rw [hc] at h3
          have hfst : sc2.1 loc TLColor.RED = s loc TLColor.RED := by
            rw [colorStep_other h2 (by simp), colorStep_other h1 (by simp)]
          constructor
          · intro prev hp
            have hp2 : (sc2.1 loc TLColor.RED).getLast? = some prev := by
              rw [hfst, hp]
            rw [colorStep_carry sc2.1 loc _ _ prev hp2] at h3
            have e3 := Option.some.inj h3
            have e3f : setCP sc2.1 loc TLColor.RED
                (capAppend (sc2.1 loc TLColor.RED) prev) = sc3.1 :=
              congrArg Prod.fst e3
            rw [← e3f, setCP_self, hfst]
          · intro hp
            have hp2 : (sc2.1 loc TLColor.RED).getLast? = none := by
              rw [hfst, hp]
            rw [colorStep_skip sc2.1 loc _ _ hp2] at h3
            have e3 := Option.some.inj h3
            have e3f : sc2.1 = sc3.1 := congrArg Prod.fst e3
            rw [← e3f, hfst]

/-- C5 witness: in a state storing GREEN = [(100, 40)], a record with all
colors absent appends a duplicate of that point and leaves RED unchanged. -/
theorem C5_carry_forward_witness :
    (update_stored_cycle_points greenOnlyState
        [(loc0, [⟨none, none, none⟩])]).1 loc0 TLColor.GREEN
      = capAppend (greenOnlyState loc0 TLColor.GREEN) ⟨40, 40⟩
    ∧ (update_stored_cycle_points greenOnlyState
        [(loc0, [⟨none, none, none⟩])]).1 loc0 TLColor.RED
      = greenOnlyState loc0 TLColor.RED := by
  constructor
  · exact (C5_carry_forward greenOnlyState loc0 ⟨none, none, none⟩
      TLColor.GREEN rfl (by decide)).1 ⟨40, 40⟩ (by decide)
  · exact (C5_carry_forward greenOnlyState loc0 ⟨none, none, none⟩
      TLColor.RED rfl (by decide)).2 (by decide)

/-! ## Claim C6 -/

/-- C6: counterexample.  The bootstrap claim fails as stated: in a state
with GREEN = [(10, 10)] and YELLOW and RED empty, a cycle record observing
GREEN and a first-ever YELLOW at epoch 105 (seconds field 45) raises in the
GREEN step (the C3 bug), so no bootstrap point is produced for YELLOW — its
list stays empty instead of becoming [(105, 45)]. -/
theorem C6_bootstrap_counterexample :
    (⟨some ⟨100, 40⟩, some ⟨105, 45⟩, none⟩ : CycleRecord).get TLColor.YELLOW
      = some ⟨105, 45⟩
    ∧ (setCP emptyCyclePoints loc0 TLColor.GREEN [⟨10, 10⟩])
        loc0 TLColor.YELLOW = []
    ∧ (update_stored_cycle_points
        (setCP emptyCyclePoints loc0 TLColor.GREEN [⟨10, 10⟩])
        [(loc0, [⟨some ⟨100, 40⟩, some ⟨105, 45⟩, none⟩])]).2 = true
    ∧ (update_stored_cycle_points
        (setCP emptyCyclePoints loc0 TLColor.GREEN [⟨10, 10⟩])
        [(loc0, [⟨some ⟨100, 40⟩, some ⟨105, 45⟩, none⟩])]).1
          loc0 TLColor.YELLOW = []
    ∧ ¬((update_stored_cycle_points
          (setCP emptyCyclePoints loc0 TLColor.GREEN [⟨10, 10⟩])
          [(loc0, [⟨some ⟨100, 40⟩, some ⟨105, 45⟩, none⟩])]).1
            loc0 TLColor.YELLOW = [⟨105, 45⟩]) := by
  decide

/-- C6 (amended): the bootstrap rule holds provided the call does not raise —
the GREEN chaining `AttributeError` (claim C3) can abort the record before
its later colors are processed.  Under that proviso, the first-ever
observation of a color — timestamp present, nothing stored for that color —
produces the bootstrap point (epoch seconds, seconds-within-minute). -/
theorem C6_bootstrap (s : StoredCyclePoints) (loc : Location)
    (r : CycleRecord) (c : TLColor) (t : DTime) (hc : r.get c = some t)
    (hprev : s loc c = [])
    (hok : (update_stored_cycle_points s [(loc, [r])]).2 = false) :
    (update_stored_cycle_points s [(loc, [r])]).1 loc c
      = [⟨t.epoch, (t.sec : ℚ)⟩] := by
  cases hd : datumStep s loc r with
  | none => rw [update_single, hd] at hok; simp at hok
  | some s2 =>
      have hres : (update_stored_cycle_points s [(loc, [r])]).1 = s2 := by
        rw [update_single, hd]
      rw [hres]
      obtain ⟨sc1, sc2, sc3, h1, h2, h3, hs2⟩ := datumStep_steps hd
      subst hs2
      cases c with
      | GREEN =>
          rw [hc] at h1
          have hp : (s loc TLColor.GREEN).getLast? = none := by rw [hprev]; rfl
          rw [colorStep_bootstrap s loc _ _ t hp] at h1
          have e1f : setCP s loc TLColor.GREEN
              (capAppend (s loc TLColor.GREEN) ⟨t.epoch, (t.sec : ℚ)⟩)
                = sc1.1 :=
            congrArg Prod.fst (Option.some.inj h1)
          rw [colorStep_other h3 (by simp), colorStep_other h2 (by simp),
            ← e1f, setCP_self, hprev, capAppend_nil]
      | YELLOW =>
          rw [hc] at h2
          have hfst : sc1.1 loc TLColor.YELLOW = s loc TLColor.YELLOW :=
            colorStep_other h1 (by simp)
          have hp1 : (sc1.1 loc TLColor.YELLOW).getLast? = none := by
            rw [hfst, hprev]; rfl
          rw [colorStep_bootstrap sc1.1 loc _ _ t hp1] at h2
          have e2f : setCP sc1.1 loc TLColor.YELLOW
              (capAppend (sc1.1 loc TLColor.YELLOW) ⟨t.epoch, (t.sec : ℚ)⟩)
                = sc2.1 :=
            congrArg Prod.fst (Option.some.inj h2)
          rw [colorStep_other h3 (by simp), ← e2f, setCP_self, hfst, hprev,
            capAppend_nil]
      | RED =>
          rw [hc] at h3
          have hfst : sc2.1 loc TLColor.RED = s loc TLColor.RED := by
            rw [colorStep_other h2 (by simp), colorStep_other h1 (by simp)]
          have hp2 : (sc2.1 loc TLColor.RED).getLast? = none := by
            rw [hfst, hprev]; rfl
          rw [colorStep_bootstrap sc2.1 loc _ _ t hp2] at h3
          have e3f : setCP sc2.1 loc TLColor.RED
              (capAppend (sc2.1 loc TLColor.RED) ⟨t.epoch, (t.sec : ℚ)⟩)
                = sc3.1 :=
            congrArg Prod.fst (Option.some.inj h3)
          rw [← e3f, setCP_self, hfst, hprev, capAppend_nil]

/-- C6 witness: from the empty history, a record observing only RED at epoch
160 (seconds field 40) stores exactly the bootstrap point (160, 40). -/
theorem C6_bootstrap_witness :
    (update_stored_cycle_points emptyCyclePoints pollTwo).1 loc0 TLColor.RED
      = [⟨160, 40⟩] := by
  exact C6_bootstrap emptyCyclePoints loc0 ⟨none, none, some ⟨160, 40⟩⟩
    TLColor.RED ⟨160, 40⟩ rfl rfl (by decide)

/-! ## Claim C4 (amended) -/

theorem runColors_cons_some2 {s s2 : StoredCyclePoints} {loc : Location}
    {r : CycleRecord} {curr curr2 : CurrCycle} {c : TLColor} {t : Option DTime}
    (cs : List TLColor) (ht : r.get c = t)
    (h : colorStep s loc curr c t = some (s2, curr2)) :
    runColors loc r s curr (c :: cs) = runColors loc r s2 curr2 cs := by
  rw [runColors_cons, ht, h]

/-- C4 (amended): the chaining scenario, with the preconditions its rules
require — a previously stored GREEN point (else rule 3 bootstraps GREEN) and
a previously stored YELLOW point (else rule 3 bootstraps YELLOW).  With last
stored RED = (100, 5), a record observing GREEN at epoch 130 and YELLOW at
epoch 135 appends GREEN (130, 30) — chained off the previous red start — and
YELLOW (135, 35) — chained off this same cycle's GREEN, witnessing the fixed
GREEN, YELLOW, RED evaluation order — and raises no error; the seconds
fields of the two timestamps are irrelevant. -/
theorem C4_chaining_amended (s : StoredCyclePoints) (loc : Location)
    (gsec ysec : ℕ)
    (hred : (s loc TLColor.RED).getLast? = some ⟨100, 5⟩)
    (hg : s loc TLColor.GREEN ≠ [])
    (hy : s loc TLColor.YELLOW ≠ []) :
    (update_stored_cycle_points s
        [(loc, [⟨some ⟨130, gsec⟩, some ⟨135, ysec⟩, none⟩])]).2 = false
    ∧ (update_stored_cycle_points s
        [(loc, [⟨some ⟨130, gsec⟩, some ⟨135, ysec⟩, none⟩])]).1
          loc TLColor.GREEN = capAppend (s loc TLColor.GREEN) ⟨130, 30⟩
    ∧ (update_stored_cycle_points s
        [(loc, [⟨some ⟨130, gsec⟩, some ⟨135, ysec⟩, none⟩])]).1
          loc TLColor.YELLOW = capAppend (s loc TLColor.YELLOW) ⟨135, 35⟩ := by
  obtain ⟨pg, hpg⟩ : ∃ pg, (s loc TLColor.GREEN).getLast? = some pg := by
    cases hgl : (s loc TLColor.GREEN).getLast? with
    | none => exact absurd (List.getLast?_eq_none_iff.mp hgl) hg
    | some a => exact ⟨a, rfl⟩
  obtain ⟨py, hpy⟩ : ∃ py, (s loc TLColor.YELLOW).getLast? = some py := by
    cases hyl : (s loc TLColor.YELLOW).getLast? with
    | none => exact absurd (List.getLast?_eq_none_iff.mp hyl) hy
    | some a => exact ⟨a, rfl⟩
  have h1 : colorStep s loc (fun _ => none) TLColor.GREEN
      (some ⟨130, gsec⟩)
      = some (setCP s loc TLColor.GREEN
                (capAppend (s loc TLColor.GREEN) ⟨130, 30⟩),
              setCurr (fun _ => none) TLColor.GREEN ⟨130, 30⟩) := by
    rw [colorStep_green_chain s loc _ ⟨130, gsec⟩ pg ⟨100, 5⟩ hpg hred]
    norm_num
  have h2 : colorStep
      (setCP s loc TLColor.GREEN
        (capAppend (s loc TLColor.GREEN) ⟨130, 30⟩)) loc
      (setCurr (fun _ => none) TLColor.GREEN ⟨130, 30⟩) TLColor.YELLOW
      (some ⟨135, ysec⟩)
      = some (setCP (setCP s loc TLColor.GREEN
                (capAppend (s loc TLColor.GREEN) ⟨130, 30⟩)) loc
                TLColor.YELLOW
                (capAppend (s loc TLColor.YELLOW) ⟨135, 35⟩),
              setCurr (setCurr (fun _ => none) TLColor.GREEN ⟨130, 30⟩)
                TLColor.YELLOW ⟨135, 35⟩) := by
    have hp1 : List.getLast? (setCP s loc TLColor.GREEN
        (capAppend (s loc TLColor.GREEN) ⟨130, 30⟩) loc TLColor.YELLOW)
          = some py := by
      rw [setCP_ne s loc TLColor.GREEN _ loc TLColor.YELLOW (by simp), hpy]
    rw [colorStep_yellow_chain _ loc _ ⟨135, ysec⟩ py ⟨130, 30⟩ hp1
      (setCurr_self _ _ _)]
    rw [setCP_ne s loc TLColor.GREEN _ loc TLColor.YELLOW (by simp)]
    norm_num
  have h3 : colorStep
      (setCP (setCP s loc TLColor.GREEN
          (capAppend (s loc TLColor.GREEN) ⟨130, 30⟩)) loc TLColor.YELLOW
          (capAppend (s loc TLColor.YELLOW) ⟨135, 35⟩)) loc
      (setCurr (setCurr (fun _ => none) TLColor.GREEN ⟨130, 30⟩)
        TLColor.YELLOW ⟨135, 35⟩) TLColor.RED none
      = some (setCP (setCP (setCP s loc TLColor.GREEN
                  (capAppend (s loc TLColor.GREEN) ⟨130, 30⟩)) loc
                  TLColor.YELLOW
                  (capAppend (s loc TLColor.YELLOW) ⟨135, 35⟩)) loc
                TLColor.RED
                (capAppend (s loc TLColor.RED) ⟨100, 5⟩),
              setCurr (setCurr (setCurr (fun _ => none) TLColor.GREEN
                  ⟨130, 30⟩) TLColor.YELLOW ⟨135, 35⟩) TLColor.RED
                ⟨100, 5⟩) := by
    have hp2 : List.getLast? (setCP (setCP s loc TLColor.GREEN
        (capAppend (s loc TLColor.GREEN) ⟨130, 30⟩)) loc TLColor.YELLOW
        (capAppend (s loc TLColor.YELLOW) ⟨135, 35⟩) loc TLColor.RED)
          = some ⟨100, 5⟩ := by
      rw [setCP_ne _ loc TLColor.YELLOW _ loc TLColor.RED (by simp),
        setCP_ne s loc TLColor.GREEN _ loc TLColor.RED (by simp), hred]
    rw [colorStep_carry _ loc _ _ ⟨100, 5⟩ hp2]
    rw [setCP_ne _ loc TLColor.YELLOW _ loc TLColor.RED (by simp),
      setCP_ne s loc TLColor.GREEN _ loc TLColor.RED (by simp)]
  have hds : datumStep s loc ⟨some ⟨130, gsec⟩, some ⟨135, ysec⟩, none⟩
      = some (setCP (setCP (setCP s loc TLColor.GREEN
            (capAppend (s loc TLColor.GREEN) ⟨130, 30⟩)) loc TLColor.YELLOW
            (capAppend (s loc TLColor.YELLOW) ⟨135, 35⟩)) loc TLColor.RED
            (capAppend (s loc TLColor.RED) ⟨100, 5⟩)) := by
    unfold datumStep colorOrder
    rw [runColors_cons_some2 _ rfl h1, runColors_cons_some2 _ rfl h2,
      runColors_cons_some2 _ rfl h3, runColors_nil]
  rw [update_single, hds]
  refine ⟨rfl, ?_, ?_⟩
  all_goals dsimp only
  · rw [setCP_ne _ loc TLColor.RED _ loc TLColor.GREEN (by simp),
      setCP_ne _ loc TLColor.YELLOW _ loc TLColor.GREEN (by simp), setCP_self]
  · rw [setCP_ne _ loc TLColor.RED _ loc TLColor.YELLOW (by simp), setCP_self]

/-- C4 witness: a concrete state with GREEN = [(70, 10)], YELLOW = [(75, 15)]
and RED = [(100, 5)] run through the amended chaining scenario. -/
theorem C4_chaining_amended_witness :
    (update_stored_cycle_points
        (setCP (setCP (setCP emptyCyclePoints loc0 TLColor.RED [⟨100, 5⟩])
            loc0 TLColor.GREEN [⟨70, 10⟩]) loc0 TLColor.YELLOW [⟨75, 15⟩])
        [(loc0, [⟨some ⟨130, 10⟩, some ⟨135, 15⟩, none⟩])]).1
      loc0 TLColor.GREEN = [⟨70, 10⟩, ⟨130, 30⟩] := by
  have h := (C4_chaining_amended
    (setCP (setCP (setCP emptyCyclePoints loc0 TLColor.RED [⟨100, 5⟩])
        loc0 TLColor.GREEN [⟨70, 10⟩]) loc0 TLColor.YELLOW [⟨75, 15⟩])
    loc0 10 15 (by decide) (by decide) (by decide)).2.1
  rw [h]
  decide

/-! ## Claim C1: the histories stay bounded by 3 -/

theorem colorStep_inv {s : StoredCyclePoints} {loc : Location}
    {curr : CurrCycle} {c : TLColor} {t : Option DTime}
    {sc : StoredCyclePoints × CurrCycle}
    (h : colorStep s loc curr c t = some sc)
    (hI : ∀ loc2 c2, (s loc2 c2).length ≤ 3) :
    ∀ loc2 c2, (sc.1 loc2 c2).length ≤ 3 := by
  intro loc2 c2
  rcases colorStep_shape h with h1 | ⟨p, h1⟩
  · rw [h1]; exact hI loc2 c2
  · rw [h1]
    unfold setCP
    split
    · exact capAppend_length_le _ _ (hI loc c)
    · exact hI loc2 c2

theorem runColors_inv (loc : Location) (r : CycleRecord) :
    ∀ (cs : List TLColor) (s : StoredCyclePoints) (curr : CurrCycle)
      (s2 : StoredCyclePoints), runColors loc r s curr cs = some s2 →
      (∀ loc2 c2, (s loc2 c2).length ≤ 3) →
      ∀ loc2 c2, (s2 loc2 c2).length ≤ 3
  | [], s, curr, s2, h, hI => by
      rw [runColors_nil] at h
      rw [← Option.some.inj h]
      exact hI
  | c :: cs, s, curr, s2, h, hI => by
      cases hcs : colorStep s loc curr c (r.get c) with
      | none =>
          rw [runColors_cons_none cs rfl hcs] at h
          exact absurd h (by simp)
      | some sc =>
          rw [runColors_cons_some cs rfl hcs] at h
          exact runColors_inv loc r cs sc.1 sc.2 s2 h (colorStep_inv hcs hI)

theorem datumStep_inv {s : StoredCyclePoints} {loc : Location}
    {r : CycleRecord} {s2 : StoredCyclePoints} (h : datumStep s loc r = some s2)
    (hI : ∀ loc2 c2, (s loc2 c2).length ≤ 3) :
    ∀ loc2 c2, (s2 loc2 c2).length ≤ 3 :=
  runColors_inv loc r colorOrder s (fun _ => none) s2 h hI

theorem runDatums_inv (loc : Location) :
    ∀ (rs : List CycleRecord) (s : StoredCyclePoints),
      (∀ loc2 c2, (s loc2 c2).length ≤ 3) →
      ∀ loc2 c2, (((runDatums loc s rs).1) loc2 c2).length ≤ 3
  | [], s, hI => hI
  | r :: rs, s, hI => by
      unfold runDatums
      cases hd : datumStep s loc r with
      | none => exact hI
      | some s2 => exact runDatums_inv loc rs s2 (datumStep_inv hd hI)

theorem update_stored_cycle_points_inv :
    ∀ (d : CycleData) (s : StoredCyclePoints),
      (∀ loc2 c2, (s loc2 c2).length ≤ 3) →
      ∀ loc2 c2, (((update_stored_cycle_points s d).1) loc2 c2).length ≤ 3
  | [], s, hI => hI
  | (loc, rs) :: rest, s, hI => by
      unfold update_stored_cycle_points
      have hrd := runDatums_inv loc rs s hI
      rcases hs : runDatums loc s rs with ⟨s2, flag⟩
      rw [hs] at hrd
      cases flag with
      | true => exact hrd
      | false => exact update_stored_cycle_points_inv rest s2 hrd

theorem update_stored_events_inv :
    ∀ (news : ControllerEvents) (se : StoredEvents),
      (∀ loc, (se loc).length ≤ 3) →
      ∀ loc, ((update_stored_events se news) loc).length ≤ 3
  | [], se, hI => hI
  | e :: rest, se, hI => by
      have hstep : ∀ loc,
          ((fun loc2 => if loc2 = e.1 then capAppendBatch (se e.1) e.2
              else se loc2) loc).length ≤ 3 := by
        intro loc
        dsimp only
        split
        · exact capAppendBatch_length_le _ _ (hI e.1)
        · exact hI loc
      exact update_stored_events_inv rest _ hstep

theorem runOps_inv :
    ∀ (ops : List Op) (st : StoredCyclePoints × StoredEvents),
      (∀ loc c, (st.1 loc c).length ≤ 3) →
      (∀ loc, (st.2 loc).length ≤ 3) →
      (∀ loc c, (((runOps st ops).1) loc c).length ≤ 3)
      ∧ (∀ loc, (((runOps st ops).2) loc).length ≤ 3)
  | [], _, hC, hE => ⟨hC, hE⟩
  | (Op.cyc d) :: rest, st, hC, hE =>
      runOps_inv rest ((update_stored_cycle_points st.1 d).1, st.2)
        (update_stored_cycle_points_inv d st.1 hC) hE
  | (Op.ev d) :: rest, st, hC, hE =>
      runOps_inv rest (st.1, update_stored_events st.2 d) hC
        (update_stored_events_inv d st.2 hE)

/-- C1: confirmed.  Starting from empty histories, after any interleaved
sequence of `update_stored_cycle_points` and `update_stored_events` calls
(crashing calls included, which keep the state mutated so far), every stored
cycle-point list and every stored event-batch list has length at most 3; and
whenever a list already holds 3 entries, the append evicts the oldest entry
(index 0) first. -/
theorem C1_bounded_history :
    (∀ (ops : List Op) (loc : Location) (c : TLColor),
        (((runOps (emptyCyclePoints, emptyStoredEvents) ops).1) loc c).length
          ≤ 3)
    ∧ (∀ (ops : List Op) (loc : Location),
        (((runOps (emptyCyclePoints, emptyStoredEvents) ops).2) loc).length
          ≤ 3)
    ∧ (∀ (l : List Point) (p : Point), l.length = 3 →
        capAppend l p = l.drop 1 ++ [p])
    ∧ (∀ (l : List (List ℚ)) (b : List ℚ), l.length = 3 →
        capAppendBatch l b = l.drop 1 ++ [b]) := by
  refine ⟨?_, ?_, ?_, ?_⟩
  · intro ops loc c
    exact (runOps_inv ops (emptyCyclePoints, emptyStoredEvents)
      (fun _ _ => by simp [emptyCyclePoints])
      (fun _ => by simp [emptyStoredEvents])).1 loc c
  · intro ops loc
    exact (runOps_inv ops (emptyCyclePoints, emptyStoredEvents)
      (fun _ _ => by simp [emptyCyclePoints])
      (fun _ => by simp [emptyStoredEvents])).2 loc
  · intro l p h
    simp only [capAppend]
    rw [if_pos (by simp [h]), List.drop_append_of_le_length (by omega)]
  · intro l b h
    simp only [capAppendBatch]
    rw [if_pos h]

/-! ## Claim C2: event correlation -/

theorem updDiff_eq_none_iff (e : ℚ) (acc : Option ℚ) (p : Point) :
    updDiff e acc p = none ↔ acc = none ∧ e < p.x := by
  cases acc with
  | none =>
      by_cases hc : 0 ≤ e - p.x
      · simp only [updDiff, if_pos hc]
        constructor
        · intro h; simp at h
        · rintro ⟨h1, h2⟩; exact absurd h2 (by linarith)
      · simp only [updDiff, if_neg hc]
        constructor
        · intro _
          exact ⟨by trivial, by linarith⟩
        · intro _
          trivial
  | some d =>
      constructor
      · intro h
        simp only [updDiff] at h
        split at h <;> simp at h
      · rintro ⟨h1, h2⟩
        exact absurd h1 (by simp)

theorem foldl_updDiff_none (e : ℚ) :
    ∀ (reds : List Point) (acc : Option ℚ),
      reds.foldl (updDiff e) acc = none ↔
        acc = none ∧ ∀ p ∈ reds, e < p.x
  | [], acc => by simp
  | p :: ps, acc => by
      rw [List.foldl_cons, foldl_updDiff_none e ps (updDiff e acc p),
        updDiff_eq_none_iff]
      constructor
      · rintro ⟨⟨h1, h2⟩, h3⟩
        refine ⟨h1, fun q hq => ?_⟩
        rcases List.mem_cons.mp hq with rfl | hq2
        · exact h2
        · exact h3 q hq2
      · rintro ⟨h1, h2⟩
        exact ⟨⟨h1, h2 p (List.mem_cons_self p ps)⟩,
          fun q hq => h2 q (List.mem_cons_of_mem _ hq)⟩

theorem foldl_updDiff_some (e : ℚ) :
    ∀ (reds : List Point) (acc : Option ℚ) (y : ℚ),
      reds.foldl (updDiff e) acc = some y →
        (acc = some y ∨ ∃ p ∈ reds, p.x ≤ e ∧ y = e - p.x)
        ∧ (∀ a, acc = some a → y ≤ a)
        ∧ (∀ q ∈ reds, q.x ≤ e → y ≤ e - q.x)
  | [], acc, y, h => by
      simp only [List.foldl_nil] at h
      refine ⟨Or.inl h, fun a ha => ?_, fun q hq => absurd hq (by simp)⟩
      rw [h] at ha
      exact le_of_eq (Option.some.inj ha)
  | p :: ps, acc, y, h => by
      rw [List.foldl_cons] at h
      obtain ⟨hmem, hacc, hall⟩ := foldl_updDiff_some e ps (updDiff e acc p) y h
      refine ⟨?_, ?_, ?_⟩
      · rcases hmem with hm | ⟨q, hq, hqe, hqy⟩
        · cases acc with
          | none =>
              by_cases hc : 0 ≤ e - p.x
              · simp only [updDiff, if_pos hc] at hm
                exact Or.inr ⟨p, List.mem_cons_self p ps, by linarith,
                  (Option.some.inj hm).symm⟩
              · simp [updDiff, hc] at hm
          | some d =>
              simp only [updDiff] at hm
              split at hm
              · next hcond =>
                  exact Or.inr ⟨p, List.mem_cons_self p ps, by linarith
                    [hcond.1], (Option.some.inj hm).symm⟩
              · exact Or.inl hm
        · exact Or.inr ⟨q, List.mem_cons_of_mem _ hq, hqe, hqy⟩
      · intro a ha
        subst ha
        by_cases hc : 0 ≤ e - p.x ∧ e - p.x < a
        · have hy := hacc (e - p.x) (by simp only [updDiff, if_pos hc])
          linarith [hc.2]
        · exact hacc a (by simp only [updDiff, if_neg hc])
      · intro q hq hqe
        rcases List.mem_cons.mp hq with rfl | hq2
        · cases acc with
          | none =>
              exact hacc (e - q.x)
                (by simp only [updDiff, if_pos (by linarith : 0 ≤ e - q.x)])
          | some d =>
              by_cases hc : e - q.x < d
              · exact hacc (e - q.x) (by
                  simp only [updDiff,
                    if_pos (⟨by linarith, hc⟩ : 0 ≤ e - q.x ∧ e - q.x < d)])
              · have hyd := hacc d (by
                  simp only [updDiff]
                  rw [if_neg]
                  intro hcon
                  exact hc hcon.2)
                linarith
        · exact hall q hq2 hqe

theorem minDiffLoop_none_iff (e : ℚ) (reds : List Point) :
    minDiffLoop e reds = none ↔ ∀ p ∈ reds, e < p.x := by
  unfold minDiffLoop
  rw [foldl_updDiff_none]
  simp

theorem minDiffLoop_some_iff (e : ℚ) (reds : List Point) (y : ℚ) :
    minDiffLoop e reds = some y ↔
      ∃ p ∈ reds, p.x ≤ e ∧ y = e - p.x ∧
        ∀ q ∈ reds, q.x ≤ e → q.x ≤ p.x := by
  constructor
  · intro h
    obtain ⟨hmem, _, hall⟩ := foldl_updDiff_some e reds none y h
    rcases hmem with hm | ⟨p, hp, hpe, hpy⟩
    · exact absurd hm (by simp)
    · refine ⟨p, hp, hpe, hpy, fun q hq hqe => ?_⟩
      have hb := hall q hq hqe
      rw [hpy] at hb
      linarith
  · rintro ⟨p, hp, hpe, hpy, hmax⟩
    cases hres : minDiffLoop e reds with
    | none =>
        have hlt := (minDiffLoop_none_iff e reds).mp hres p hp
        exact absurd hlt (by linarith)
    | some y2 =>
        obtain ⟨hmem2, _, hall2⟩ := foldl_updDiff_some e reds none y2 hres
        rcases hmem2 with hm | ⟨q, hq, hqe, hqy⟩
        · exact absurd hm (by simp)
        · have h1 : y2 ≤ e - p.x := hall2 p hp hpe
          have h2 : q.x ≤ p.x := hmax q hq hqe
          have h3 : y2 = y := by
            rw [hqy] at h1
            have h4 : p.x ≤ q.x := by linarith
            rw [hqy, hpy]
            linarith
          rw [h3]

theorem foldl_corStep_zip (reds : List Point) :
    ∀ (es : List ℚ) (xs ys : List ℚ), xs.length = ys.length →
      (es.foldl (corStep reds) (xs, ys)).1.zip
          (es.foldl (corStep reds) (xs, ys)).2
        = xs.zip ys
          ++ es.filterMap
              (fun e => (minDiffLoop e reds).map (fun d => (e, d)))
  | [], xs, ys, h => by simp
  | e :: es, xs, ys, h => by
      rw [List.foldl_cons]
      cases hm : minDiffLoop e reds with
      | none =>
          rw [show corStep reds (xs, ys) e = (xs, ys) from by
            simp [corStep, hm]]
          rw [foldl_corStep_zip reds es xs ys h]
          simp [List.filterMap_cons, hm]
      | some d =>
          rw [show corStep reds (xs, ys) e = (xs ++ [e], ys ++ [d]) from by
            simp [corStep, hm]]
          rw [foldl_corStep_zip reds es (xs ++ [e]) (ys ++ [d])
            (by simp [h])]
          rw [List.zip_append h]
          simp [List.filterMap_cons, hm]

/-- C2: confirmed.  `minDiffLoop` returns `none` exactly when every retained
RED point lies strictly after the event (the event is dropped), and returns
`some y` exactly when `y = e − x` for the RED point with the largest `x ≤ e`;
`write_events` emits, per location — nothing unless at least 3 event batches
and at least 3 RED points are retained — the pairs `(e, e − x)` for the
events of the oldest batch in sorted order; and on RED points x = 100, 160,
220 with oldest batch {170, 90} the single emitted row is (170, 10). -/
theorem C2_event_correlation :
    (∀ (e : ℚ) (reds : List Point),
        (minDiffLoop e reds = none ↔ ∀ p ∈ reds, e < p.x)
        ∧ ∀ y : ℚ, minDiffLoop e reds = some y ↔
            ∃ p ∈ reds, p.x ≤ e ∧ y = e - p.x ∧
              ∀ q ∈ reds, q.x ≤ e → q.x ≤ p.x)
    ∧ (∀ (se : List (Location × List (List ℚ))) (scp : StoredCyclePoints),
        write_events se scp
          = (se.map (fun le =>
              if le.2.length < 3 ∨ (scp le.1 TLColor.RED).length < 3 then []
              else (List.insertionSort (· ≤ ·) le.2.headI).filterMap
                (fun e => (minDiffLoop e (scp le.1 TLColor.RED)).map
                  (fun d => (le.1, e, d))))).flatten)
    ∧ write_events eventWindow redTriple = [(loc0, 170, 10)] := by
  refine ⟨fun e reds => ⟨minDiffLoop_none_iff e reds,
    fun y => minDiffLoop_some_iff e reds y⟩, ?_, ?_⟩
  · intro se scp
    simp only [write_events]
    refine congrArg List.flatten (List.map_congr_left ?_)
    intro le _
    split
    · rfl
    · rw [show correlateBatch (List.insertionSort (· ≤ ·) le.2.headI)
          (scp le.1 TLColor.RED)
        = (List.insertionSort (· ≤ ·) le.2.headI).foldl
            (corStep (scp le.1 TLColor.RED)) ([], []) from rfl]
      rw [foldl_corStep_zip (scp le.1 TLColor.RED) _ [] [] rfl]
      simp only [List.map_filterMap, Option.map_map, List.zip_nil_right,
        List.nil_append]
      rfl
  · have hsort : List.insertionSort (· ≤ ·) [(170 : ℚ), 90] = [90, 170] := by
      norm_num [List.insertionSort, List.orderedInsert]
    have h90 : minDiffLoop 90 (redTriple loc0 TLColor.RED) = none := by
      norm_num [minDiffLoop, redTriple, setCP, updDiff]
    have h170 : minDiffLoop 170 (redTriple loc0 TLColor.RED) = some 10 := by
      norm_num [minDiffLoop, redTriple, setCP, updDiff]
    simp only [write_events, eventWindow, List.map_cons, List.map_nil]
    rw [if_neg (by norm_num [redTriple, setCP])]
    simp only [List.headI, hsort]
    rw [show correlateBatch [(90 : ℚ), 170] (redTriple loc0 TLColor.RED)
        = ([170], [10]) from by
      simp [correlateBatch, corStep, h90, h170]]
    simp

/-- C2 witness: the `some` characterization applied at the concrete example
(event 170 against RED points x = 100, 160, 220 matches x = 160), and the
`none` characterization at event 90. -/
theorem C2_event_correlation_witness :
    minDiffLoop 170 [⟨100, 0⟩, ⟨160, 0⟩, ⟨220, 0⟩] = some 10
    ∧ minDiffLoop 90 [⟨100, 0⟩, ⟨160, 0⟩, ⟨220, 0⟩] = none := by
  constructor
  · exact ((C2_event_correlation.1 170 [⟨100, 0⟩, ⟨160, 0⟩, ⟨220, 0⟩]).2
      10).mpr
      ⟨⟨160, 0⟩, by simp, by norm_num, by norm_num, by
        intro q hq hqe
        simp only [List.mem_cons, List.not_mem_nil, or_false] at hq
        rcases hq with rfl | rfl | rfl
        · norm_num
        · norm_num
        · norm_num at hqe⟩
  · exact (C2_event_correlation.1 90 [⟨100, 0⟩, ⟨160, 0⟩, ⟨220, 0⟩]).1.mpr
      (by
        intro p hp
        simp only [List.mem_cons, List.not_mem_nil, or_false] at hp
        rcases hp with rfl | rfl | rfl <;> norm_num)

/-- C1 witness: the eviction equations applied at concrete full lists. -/
theorem C1_bounded_history_witness :
    capAppend [⟨1, 1⟩, ⟨2, 2⟩, ⟨3, 3⟩] ⟨4, 4⟩
      = [⟨2, 2⟩, ⟨3, 3⟩, ⟨4, 4⟩]
    ∧ capAppendBatch [[1], [2], [3]] [4] = [[2], [3], [4]] := by
  constructor
  · rw [C1_bounded_history.2.2.1 [⟨1, 1⟩, ⟨2, 2⟩, ⟨3, 3⟩] ⟨4, 4⟩ rfl]
    rfl
  · rw [C1_bounded_history.2.2.2 [[1], [2], [3]] [4] rfl]
    rfl

/-! ## Claim C9: the snapshot parsers -/

theorem pushEntry_loop (loc : Location) :
    ∀ (ts : List ℚ) (pre : List ℚ),
      ts.foldl (fun acc t => pushEntry acc loc t) [(loc, pre)]
        = [(loc, pre ++ ts)]
  | [], pre => by simp
  | t :: ts, pre => by
      rw [List.foldl_cons]
      rw [show pushEntry [(loc, pre)] loc t = [(loc, pre ++ [t])] from by
        simp [pushEntry]]
      rw [pushEntry_loop loc ts (pre ++ [t])]
      simp

theorem foldl_pushEntry_single (loc : Location) :
    ∀ ts : List ℚ,
      ts.foldl (fun acc t => pushEntry acc loc t) ([] : ControllerEvents)
        = if ts = [] then [] else [(loc, ts)]
  | [] => rfl
  | t :: ts => by
      rw [List.foldl_cons,
        show pushEntry ([] : ControllerEvents) loc t = [(loc, [t])] from rfl,
        pushEntry_loop loc ts [t]]
      simp

theorem triggerFold_filter (pf : String → ℚ) (tyme : ℚ) (loc : Location) :
    ∀ (l : List String) (ev : ControllerEvents),
      l.foldl (fun acc trig =>
          if trig = "" then acc else pushEntry acc loc (tyme + pf trig)) ev
        = (l.filter (fun t => !(t == ""))).foldl
            (fun acc t => pushEntry acc loc (tyme + pf t)) ev
  | [], ev => rfl
  | t :: l, ev => by
      rw [List.foldl_cons]
      by_cases ht : t = ""
      · rw [if_pos ht, triggerFold_filter pf tyme loc l ev]
        have hf : (t :: l).filter (fun x => !(x == ""))
            = l.filter (fun x => !(x == "")) := by
          simp [List.filter_cons, ht]
        rw [hf]
      · rw [if_neg ht,
          triggerFold_filter pf tyme loc l (pushEntry ev loc (tyme + pf t))]
        have hf : (t :: l).filter (fun x => !(x == ""))
            = t :: l.filter (fun x => !(x == "")) := by
          simp [List.filter_cons, ht]
        rw [hf, List.foldl_cons]

/-- C9: confirmed.  Both parsers return empty results without raising when
the payload lacks a 200 status code; `make_cycle_data` keeps a per-cycle
record exactly when at least one of its three color strings is non-empty;
and the trigger loop of `get_controller_events` pushes, for each non-empty
comma-separated entry, the absolute timestamp obtained by adding the parsed
relative offset to the poll time, skipping empty entries. -/
theorem C9_parser_guards :
    (∀ (pt : String → DTime) (ti : String → Int) (msg : CycleMsg),
        msg.statusCode ≠ some 200 → make_cycle_data pt ti msg = [])
    ∧ (∀ (pf : String → ℚ) (ti : String → Int) (msg : TrafficMsg) (tyme : ℚ),
        msg.statusCode ≠ some 200 → get_controller_events pf ti msg tyme = [])
    ∧ (∀ (pt : String → DTime) (cd : RawColorDict),
        anyPresent (mkDatum pt cd) = true ↔ ∃ c, cd.get c ≠ "")
    ∧ (∀ (pf : String → ℚ) (tyme : ℚ) (ev : ControllerEvents)
        (loc : Location) (s : String),
        triggerFold pf tyme ev loc s
          = ((s.splitOn commaSep).filter (fun t => !(t == ""))).foldl
              (fun acc t => pushEntry acc loc (tyme + pf t)) ev)
    ∧ (∀ (ts : List ℚ) (loc : Location),
        ts.foldl (fun acc t => pushEntry acc loc t) ([] : ControllerEvents)
          = if ts = [] then [] else [(loc, ts)]) := by
  refine ⟨?_, ?_, ?_, ?_, ?_⟩
  · intro pt ti msg h
    unfold make_cycle_data
    rw [if_neg h]
  · intro pf ti msg tyme h
    unfold get_controller_events
    rw [if_neg h]
  · intro pt cd
    constructor
    · intro h
      by_contra hn
      push_neg at hn
      have hg := hn TLColor.GREEN
      have hy := hn TLColor.YELLOW
      have hr := hn TLColor.RED
      simp only [RawColorDict.get, ne_eq, not_not] at hg hy hr
      simp [anyPresent, mkDatum, hg, hy, hr] at h
    · rintro ⟨c, hc⟩
      cases c <;>
        simp only [RawColorDict.get] at hc <;>
        simp [anyPresent, mkDatum, hc]
  · intro pf tyme ev loc s
    unfold triggerFold
    exact triggerFold_filter pf tyme loc (s.splitOn commaSep) ev
  · intro ts loc
    exact foldl_pushEntry_single loc ts

/-- C9 witness: the failure guards applied to a payload with no status code,
and the retention test at a record with only a GREEN string present. -/
theorem C9_parser_guards_witness :
    make_cycle_data (fun _ => ⟨0, 0⟩) (fun _ => 0) ⟨none, []⟩ = []
    ∧ get_controller_events (fun _ => 0) (fun _ => 0) ⟨some 500, []⟩ 0 = []
    ∧ anyPresent (mkDatum (fun _ => ⟨0, 0⟩) ⟨r"x", r"", r""⟩) = true := by
  refine ⟨?_, ?_, ?_⟩
  · exact C9_parser_guards.1 (fun _ => ⟨0, 0⟩) (fun _ => 0) ⟨none, []⟩
      (by simp)
  · exact C9_parser_guards.2.1 (fun _ => 0) (fun _ => 0) ⟨some 500, []⟩ 0
      (by simp)
  · exact (C9_parser_guards.2.2.1 (fun _ => ⟨0, 0⟩) ⟨r"x", r"", r""⟩).mpr
      ⟨TLColor.GREEN, by simp [RawColorDict.get]⟩

/-! ## Claim C8 (amended): monotone x under in-order timestamps -/

theorem lastXs_eq_nil {l : List Point} (h : l.getLast? = none) :
    lastXs l = [] := by
  simp [lastXs, h]

theorem lastXs_eq_single {l : List Point} {q : Point}
    (h : l.getLast? = some q) : lastXs l = [q.x] := by
  simp [lastXs, h]

theorem lastXs_capAppend (l : List Point) (p : Point) :
    lastXs (capAppend l p) = [p.x] :=
  lastXs_eq_single (capAppend_getLast? l p)

theorem chain_capAppend {l : List Point} {p : Point}
    (hs : List.Chain' (· ≤ ·) (l.map Point.x))
    (hle : ∀ q : Point, l.getLast? = some q → q.x ≤ p.x) :
    List.Chain' (· ≤ ·) ((capAppend l p).map Point.x) := by
  have hbig : List.Chain' (· ≤ ·) ((l ++ [p]).map Point.x) := by
    rw [List.map_append, List.chain'_append]
    refine ⟨hs, by simp, ?_⟩
    intro a ha b hb
    simp only [List.map_cons, List.map_nil, List.head?_cons, Option.mem_def,
      Option.some.injEq] at hb
    subst hb
    rw [List.getLast?_map] at ha
    cases hq : l.getLast? with
    | none => rw [hq] at ha; simp at ha
    | some q =>
        rw [hq] at ha
        simp at ha
        subst ha
        exact hle q hq
  simp only [capAppend]
  split
  · rw [List.map_drop, List.drop_one]
    exact hbig.tail
  · exact hbig

/-- Richer branch classification of a successful color step: the appended
point, when one is appended, has `x` equal to the carried previous point or
to the observed timestamp's epoch. -/
theorem colorStep_shape_x {s : StoredCyclePoints} {loc : Location}
    {curr : CurrCycle} {c : TLColor} {t : Option DTime}
    {sc : StoredCyclePoints × CurrCycle}
    (h : colorStep s loc curr c t = some sc) :
    (sc.1 = s ∧ t = none ∧ (s loc c).getLast? = none)
    ∨ (∃ prev, t = none ∧ (s loc c).getLast? = some prev
        ∧ sc.1 = setCP s loc c (capAppend (s loc c) prev))
    ∨ (∃ td p, t = some td
        ∧ sc.1 = setCP s loc c (capAppend (s loc c) p)
        ∧ p.x = td.epoch) := by
  simp only [colorStep] at h
  repeat' split at h
  all_goals
    simp only [Option.some.injEq, Prod.mk.injEq, reduceCtorEq] at h
  all_goals try subst h
  all_goals first
    | exact Or.inl ⟨rfl, rfl, by assumption⟩
    | exact Or.inr (Or.inl ⟨_, rfl, by assumption, rfl⟩)
    | exact Or.inr (Or.inr ⟨_, _, rfl, rfl, rfl⟩)

theorem colorStep_sorted {s : StoredCyclePoints} {loc : Location}
    {curr : CurrCycle} {c : TLColor} {t : Option DTime}
    {sc : StoredCyclePoints × CurrCycle} (rest : List ℚ)
    (h : colorStep s loc curr c t = some sc)
    (hs : List.Chain' (· ≤ ·) ((s loc c).map Point.x))
    (hf : List.Chain' (· ≤ ·) (lastXs (s loc c) ++ epochsOf t ++ rest)) :
    List.Chain' (· ≤ ·) ((sc.1 loc c).map Point.x)
    ∧ List.Chain' (· ≤ ·) (lastXs (sc.1 loc c) ++ rest) := by
  rcases colorStep_shape_x h with ⟨h1, ht, hp⟩ | ⟨prev, ht, hp, h1⟩
    | ⟨td, p, ht, h1, hx⟩
  · subst ht
    rw [h1]
    refine ⟨hs, ?_⟩
    simpa [epochsOf] using hf
  · subst ht
    rw [h1, setCP_self]
    constructor
    · exact chain_capAppend hs (fun q hq => by
        rw [hq] at hp
        rw [Option.some.inj hp])
    · rw [lastXs_capAppend]
      rw [lastXs_eq_single hp] at hf
      simpa [epochsOf] using hf
  · subst ht
    rw [h1, setCP_self]
    rw [show epochsOf (some td) = [td.epoch] from rfl] at hf
    constructor
    · refine chain_capAppend hs (fun q hq => ?_)
      rw [lastXs_eq_single hq] at hf
      rw [hx]
      exact (List.chain'_cons.mp hf).1
    · rw [lastXs_capAppend, hx]
      cases hq : (s loc c).getLast? with
      | none =>
          rw [lastXs_eq_nil hq] at hf
          simpa using hf
      | some q =>
          rw [lastXs_eq_single hq] at hf
          exact (List.chain'_cons.mp hf).2

theorem datumStep_sorted {s : StoredCyclePoints} {loc : Location}
    {r : CycleRecord} {s2 : StoredCyclePoints}
    (R : Location → TLColor → List ℚ) (h : datumStep s loc r = some s2)
    (hs : ∀ loc2 c2, List.Chain' (· ≤ ·) ((s loc2 c2).map Point.x))
    (hf : ∀ loc2 c2, List.Chain' (· ≤ ·)
        (lastXs (s loc2 c2) ++ addDatum loc r R loc2 c2)) :
    (∀ loc2 c2, List.Chain' (· ≤ ·) ((s2 loc2 c2).map Point.x))
    ∧ (∀ loc2 c2, List.Chain' (· ≤ ·) (lastXs (s2 loc2 c2) ++ R loc2 c2)) := by
  obtain ⟨sc1, sc2, sc3, h1, h2, h3, hs2⟩ := datumStep_steps h
  subst hs2
  have haddloc : ∀ c2 : TLColor, addDatum loc r R loc c2
      = epochsOf (r.get c2) ++ R loc c2 := fun c2 => by
    simp [addDatum]
  have haddne : ∀ (loc2 : Location) (c2 : TLColor), loc2 ≠ loc →
      addDatum loc r R loc2 c2 = R loc2 c2 := fun loc2 c2 hne => by
    simp [addDatum, hne]
  -- step 1: GREEN
  have hfg := hf loc TLColor.GREEN
  rw [haddloc TLColor.GREEN, ← List.append_assoc] at hfg
  have P1 := colorStep_sorted (R loc TLColor.GREEN) h1 (hs loc TLColor.GREEN)
    hfg
  -- step 2: YELLOW (whose list step 1 did not touch)
  have e1y : sc1.1 loc TLColor.YELLOW = s loc TLColor.YELLOW :=
    colorStep_other h1 (by simp)
  have hfy := hf loc TLColor.YELLOW
  rw [haddloc TLColor.YELLOW, ← List.append_assoc] at hfy
  have P2 := colorStep_sorted (R loc TLColor.YELLOW) h2
    (by rw [e1y]; exact hs loc TLColor.YELLOW) (by rw [e1y]; exact hfy)
  -- step 3: RED (untouched by steps 1 and 2)
  have e2r : sc2.1 loc TLColor.RED = s loc TLColor.RED := by
    rw [colorStep_other h2 (by simp), colorStep_other h1 (by simp)]
  have hfr := hf loc TLColor.RED
  rw [haddloc TLColor.RED, ← List.append_assoc] at hfr
  have P3 := colorStep_sorted (R loc TLColor.RED) h3
    (by rw [e2r]; exact hs loc TLColor.RED) (by rw [e2r]; exact hfr)
  -- the YELLOW and GREEN lists after step 3 equal those after steps 2, 1
  have e3y : sc3.1 loc TLColor.YELLOW = sc2.1 loc TLColor.YELLOW :=
    colorStep_other h3 (by simp)
  have e3g : sc3.1 loc TLColor.GREEN = sc1.1 loc TLColor.GREEN := by
    rw [colorStep_other h3 (by simp), colorStep_other h2 (by simp)]
  have eoth : ∀ (loc2 : Location) (c2 : TLColor), loc2 ≠ loc →
      sc3.1 loc2 c2 = s loc2 c2 := fun loc2 c2 hne => by
    rw [colorStep_other h3 (fun hcon => hne hcon.1),
      colorStep_other h2 (fun hcon => hne hcon.1),
      colorStep_other h1 (fun hcon => hne hcon.1)]
  constructor
  · intro loc2 c2
    by_cases hl : loc2 = loc
    · subst hl
      cases c2 with
      | GREEN => rw [e3g]; exact P1.1
      | YELLOW => rw [e3y]; exact P2.1
      | RED => exact P3.1
    · rw [eoth loc2 c2 hl]
      exact hs loc2 c2
  · intro loc2 c2
    by_cases hl : loc2 = loc
    · subst hl
      cases c2 with
      | GREEN => rw [e3g]; exact P1.2
      | YELLOW => rw [e3y]; exact P2.2
      | RED => exact P3.2
    · rw [eoth loc2 c2 hl]
      have := hf loc2 c2
      rw [haddne loc2 c2 hl] at this
      exact this

theorem runDatums_sorted (loc : Location) :
    ∀ (rs : List CycleRecord) (s : StoredCyclePoints)
      (R : Location → TLColor → List ℚ),
      (∀ loc2 c2, List.Chain' (· ≤ ·) ((s loc2 c2).map Point.x)) →
      (∀ loc2 c2, List.Chain' (· ≤ ·)
          (lastXs (s loc2 c2) ++ addDatums loc rs R loc2 c2)) →
      (∀ loc2 c2, List.Chain' (· ≤ ·)
          (((runDatums loc s rs).1 loc2 c2).map Point.x))
      ∧ ((runDatums loc s rs).2 = false →
          ∀ loc2 c2, List.Chain' (· ≤ ·)
            (lastXs ((runDatums loc s rs).1 loc2 c2) ++ R loc2 c2))
  | [], s, R, hs, hf => ⟨hs, fun _ => hf⟩
  | r :: rs, s, R, hs, hf => by
      unfold runDatums
      cases hd : datumStep s loc r with
      | none => exact ⟨hs, by simp⟩
      | some s2 =>
          have hstep := datumStep_sorted (addDatums loc rs R) hd hs
            (fun loc2 c2 => hf loc2 c2)
          exact runDatums_sorted loc rs s2 R hstep.1 hstep.2

theorem update_sorted :
    ∀ (d : CycleData) (s : StoredCyclePoints)
      (R : Location → TLColor → List ℚ),
      (∀ loc2 c2, List.Chain' (· ≤ ·) ((s loc2 c2).map Point.x)) →
      (∀ loc2 c2, List.Chain' (· ≤ ·)
          (lastXs (s loc2 c2) ++ addData d R loc2 c2)) →
      ∀ loc2 c2, List.Chain' (· ≤ ·)
        (((update_stored_cycle_points s d).1 loc2 c2).map Point.x)
  | [], s, R, hs, hf => hs
  | (loc, rs) :: rest, s, R, hs, hf => by
      unfold update_stored_cycle_points
      have hrd := runDatums_sorted loc rs s (addData rest R) hs
        (fun loc2 c2 => hf loc2 c2)
      rcases hr : runDatums loc s rs with ⟨s2, flag⟩
      rw [hr] at hrd
      cases flag with
      | true => exact hrd.1
      | false =>
          exact update_sorted rest s2 R hrd.1 (hrd.2 rfl)

/-- C8 (amended): the x coordinates of each stored list are monotonically
non-decreasing — not strictly increasing, since carry-forward duplicates the
previous point — and only under the discipline the polling source provides:
each call preserves non-decreasing x order provided that, per location and
color, the snapshot's observed epochs are non-decreasing in processing order
and no smaller than the x of the last stored point.  Out-of-order timestamps
(the counterexample) violate even this weakened order. -/
theorem C8_monotonic_amended (s : StoredCyclePoints) (d : CycleData)
    (hs : ∀ loc c, List.Chain' (· ≤ ·) ((s loc c).map Point.x))
    (hf : ∀ loc c, List.Chain' (· ≤ ·)
        (lastXs (s loc c) ++ obsTimes d loc c)) :
    ∀ loc c, List.Chain' (· ≤ ·)
      (((update_stored_cycle_points s d).1 loc c).map Point.x) :=
  update_sorted d s (fun _ _ => []) hs (by
    intro loc2 c2
    have := hf loc2 c2
    rw [show obsTimes d loc2 c2 = addData d (fun _ _ => []) loc2 c2 from rfl]
      at this
    exact this)

/-- C8 witness: one update on the empty history delivering GREEN@100 then
GREEN@100 again (equal epochs, in order) keeps the GREEN x list
non-decreasing. -/
theorem C8_monotonic_amended_witness :
    List.Chain' (· ≤ ·)
      (((update_stored_cycle_points emptyCyclePoints pollOne).1
          loc0 TLColor.GREEN).map Point.x) := by
  refine C8_monotonic_amended emptyCyclePoints pollOne ?_ ?_ loc0 TLColor.GREEN
  · intro loc c
    simp [emptyCyclePoints]
  · intro loc c
    by_cases hl : loc = loc0
    · subst hl
      cases c <;>
        simp [emptyCyclePoints, lastXs, obsTimes, addData, addDatums,
          addDatum, epochsOf, pollOne, greenAt100, CycleRecord.get]
    · simp [emptyCyclePoints, lastXs, obsTimes, addData, addDatums,
        addDatum, epochsOf, pollOne, hl]

end Purdue
